import Mathlib

/-!
Shallow embedding of the Solana USDC payment API (`fastapi-solana-api.py`)
and proofs about its reconciliation and notification engine.

Modelling conventions:
* MongoDB collections are lists of documents in insertion order;
  `find_one` is `List.find?`, `update_one` rewrites the first match.
* `datetime` values are natural numbers, `float` amounts are exact
  rationals (a Python float holds an exact dyadic rational; comparison of
  two non-NaN floats is exactly the rational comparison of their values).
  The lossy text-to-binary64 parse that produces those floats is modelled
  separately by `roundF64`.
* Exceptions are `Except` values from the oracle inputs; `try/except`
  blocks become total functions that turn the error branch into a log line.
-/

namespace SolanaUSDC

/-- A stored document of the `transactions` collection
(`fastapi-solana-api.py`, lines 116-128), including the persisted
`wallet_private_key`. -/
structure Transaction where
  id : String
  merchant_id : String
  payment_id : String
  wallet_address : String
  wallet_private_key : String
  amount : ℚ
  status : String
  tx_signature : Option String
  created_at : ℕ
  confirmed_at : Option ℕ
  metadata : Option String
deriving DecidableEq

/-- The public `Payment` pydantic model (lines 54-63).  It has no
private-key field. -/
structure Payment where
  id : String
  payment_id : String
  wallet_address : String
  amount : ℚ
  status : String
  tx_signature : Option String
  created_at : ℕ
  confirmed_at : Option ℕ
  metadata : Option String
deriving DecidableEq

/-- A stored document of the `merchants` collection (lines 270-278). -/
structure Merchant where
  merchant_id : String
  name : String
  api_key : String
  webhook_url : Option String
  default_wallet : String
  default_wallet_private_key : String
  created_at : ℕ
deriving DecidableEq

/-- The `WebhookPayload` pydantic model (lines 74-76). -/
structure WebhookPayload where
  event : String
  payment : Payment
deriving DecidableEq

/-- The `PaymentRequest` pydantic model (lines 49-52), after validation. -/
structure PaymentRequest where
  amount : ℚ
  payment_id : String
  metadata : Option String
deriving DecidableEq

/-- The `PaymentResponse` pydantic model (lines 65-67). -/
structure PaymentResponse where
  success : Bool
  payment : Payment
deriving DecidableEq

/-- The `PaymentListResponse` pydantic model (lines 69-72), with the
pagination dictionary flattened. -/
structure PaymentListResponse where
  success : Bool
  payments : List Payment
  total : ℕ
  limit : ℕ
  offset : ℕ
deriving DecidableEq

/-- Oracle for the Solana RPC client: `get_token_accounts_by_owner`
(keyed by owner address) and `get_token_account_balance` (keyed by token
account, returning the `ui_amount`).  `Except.error` models a raised
exception (network failure, malformed data, `float(None)`, ...). -/
structure LedgerView where
  tokenAccounts : String → Except String (List String)
  balance : String → Except String ℚ

/-- Ambient collaborators: the `merchants` collection and the outbound
HTTP post of `send_webhook_to_merchant` (`Except.error` = raised
exception / failed delivery). -/
structure Env where
  merchants : List Merchant
  deliver : String → WebhookPayload → Except String Unit

/-- The repeated `Payment(...)` construction from a stored transaction
document (lines 158-168, 192-202, 225-235): every field except the
private key is copied across. -/
def paymentOfTx (t : Transaction) : Payment :=
  ⟨t.id, t.payment_id, t.wallet_address, t.amount, t.status, t.tx_signature,
   t.created_at, t.confirmed_at, t.metadata⟩

/-- Blank out the private key of a stored document; two documents with the
same `erasePk` image differ at most in their private keys. -/
def erasePk (t : Transaction) : Transaction :=
  { t with wallet_private_key := "" }

/-- `db.transactions.find_one({"id": i})`: first document with this id. -/
def getById (s : List Transaction) (i : String) : Option Transaction :=
  s.find? (fun t => t.id == i)

/-- The stored status of the document with id `i`, if present. -/
def statusOf (s : List Transaction) (i : String) : Option String :=
  (getById s i).map (fun t => t.status)

/-- The `$set` document of the update at lines 336-342: status becomes
`"confirmed"` and `confirmed_at` is set, all other fields kept. -/
def confirmTx (t : Transaction) (now : ℕ) : Transaction :=
  { t with status := "confirmed", confirmed_at := some now }

/-- `db.transactions.update_one({"id": i}, {"$set": ...})` (lines
336-342): rewrite the first matching document, unconditionally on its
current status. -/
def updateOne (s : List Transaction) (i : String) (now : ℕ) : List Transaction :=
  match s with
  | [] => []
  | t :: rest =>
      if t.id == i then confirmTx t now :: rest
      else t :: updateOne rest i now

/-- `db.merchants.find_one({"merchant_id": mid})`. -/
def getMerchant (E : Env) (mid : String) : Option Merchant :=
  E.merchants.find? (fun m => m.merchant_id == mid)

/-- The webhook payload built at lines 223-236 from a stored document. -/
def webhookPayloadOf (t : Transaction) : WebhookPayload :=
  ⟨"payment.confirmed", paymentOfTx t⟩

/-- `send_webhook_to_merchant` (lines 215-246): look up the merchant; if
absent, or without a (truthy) `webhook_url`, return silently; otherwise
build the payload and post it, catching and logging any failure.  Result:
(attempted posts, log lines). -/
def sendWebhookToMerchant (E : Env) (transaction : Transaction) :
    List (String × WebhookPayload) × List String :=
  match getMerchant E transaction.merchant_id with
  | none => ([], [])
  | some merchant =>
      match merchant.webhook_url with
      | none => ([], [])
      | some url =>
          if url = "" then ([], [])
          else
            let payload := webhookPayloadOf transaction
            match E.deliver url payload with
            | .ok _ => ([(url, payload)], [])
            | .error e =>
                ([(url, payload)],
                 ["Error sending webhook for " ++ transaction.id ++ ": " ++ e])

/-- Result of one `check_payment_received` call: the transactions
collection afterwards, the documents handed to the notifier
(`send_webhook_to_merchant` arguments), the posts attempted, and the log
lines printed. -/
structure CheckResult where
  store : List Transaction
  notified : List Transaction
  sent : List (String × WebhookPayload)
  logs : List String
deriving DecidableEq

/-- `check_payment_received` (lines 311-353): query the token accounts of
the payment's receiving address; with no accounts, return silently; else
read the first account's balance and, when it reaches the requested
amount, update the document by id, re-fetch it, and hand it to
`send_webhook_to_merchant`.  The surrounding `try/except` turns any raised
error into a log line.  (If the re-fetch after the update returns nothing,
the code would raise inside `send_webhook_to_merchant`'s own handler and
be caught here; that branch is the final log case.) -/
def checkPaymentReceived (E : Env) (L : LedgerView) (now : ℕ)
    (store : List Transaction) (t : Transaction) : CheckResult :=
  match L.tokenAccounts t.wallet_address with
  | .error e =>
      ⟨store, [], [], ["Error checking payment for " ++ t.id ++ ": " ++ e]⟩
  | .ok [] => ⟨store, [], [], []⟩
  | .ok (firstAccount :: _) =>
      match L.balance firstAccount with
      | .error e =>
          ⟨store, [], [], ["Error checking payment for " ++ t.id ++ ": " ++ e]⟩
      | .ok usdc_amount =>
          if t.amount ≤ usdc_amount then
            let store2 := updateOne store t.id now
            match getById store2 t.id with
            | none =>
                ⟨store2, [], [],
                 ["Error checking payment for " ++ t.id ++ ": NoneType"]⟩
            | some updated_tx =>
                let w := sendWebhookToMerchant E updated_tx
                ⟨store2, [updated_tx], w.1, w.2⟩
          else ⟨store, [], [], []⟩

/-- The `for tx in pending_txs` body of `payment_listener` (lines
298-300): run `check_payment_received` on each snapshot in order,
threading the collection through. -/
def runBatch (E : Env) (L : LedgerView) (now : ℕ)
    (store : List Transaction) : List Transaction → CheckResult
  | [] => ⟨store, [], [], []⟩
  | t :: rest =>
      let r := checkPaymentReceived E L now store t
      let r2 := runBatch E L now r.store rest
      ⟨r2.store, r.notified ++ r2.notified, r.sent ++ r2.sent, r.logs ++ r2.logs⟩

/-- `db.transactions.find({"status": "pending"})` followed by
`to_list(length=100)` (lines 295-296). -/
def pendingList (store : List Transaction) : List Transaction :=
  (store.filter (fun t => t.status == "pending")).take 100

/-- `await asyncio.sleep(15)` after a successful batch (line 303). -/
def sleepInterval : ℕ := 15

/-- `await asyncio.sleep(30)` after a batch-level exception (line 306). -/
def errorSleepInterval : ℕ := 30

/-- Accumulated observable history of the listener loop. -/
structure LoopState where
  store : List Transaction
  notified : List Transaction
  sent : List (String × WebhookPayload)
  logs : List String
  sleeps : List ℕ
deriving DecidableEq

/-- Loop state at startup: the current collection, nothing yet observed. -/
def initState (store : List Transaction) : LoopState :=
  ⟨store, [], [], [], []⟩

/-- One iteration of the `while True` loop of `payment_listener` (lines
292-306).  `fault` models an unexpected exception raised inside the
`try` block before the per-record handling (e.g. the `find` itself):
the `except` arm logs it and sleeps the longer interval.  A fault-free
iteration scans the pending documents, runs the batch, and sleeps the
steady interval. -/
def listenerCycle (E : Env) (L : LedgerView) (now : ℕ) (fault : Option String)
    (s : LoopState) : LoopState :=
  match fault with
  | some e =>
      { s with logs := s.logs ++ ["Error in payment listener: " ++ e],
               sleeps := s.sleeps ++ [errorSleepInterval] }
  | none =>
      let r := runBatch E L now s.store (pendingList s.store)
      ⟨r.store, s.notified ++ r.notified, s.sent ++ r.sent, s.logs ++ r.logs,
       s.sleeps ++ [sleepInterval]⟩

/-- Per-cycle oracle inputs: the ledger as seen at each cycle, the
wall clock, and the batch-level fault schedule. -/
structure LoopEnv where
  ledger : ℕ → LedgerView
  clock : ℕ → ℕ
  fault : ℕ → Option String

/-- `n` iterations of `payment_listener`. -/
def runListener (E : Env) (LE : LoopEnv) (s0 : LoopState) : ℕ → LoopState
  | 0 => s0
  | n + 1 => listenerCycle E (LE.ledger n) (LE.clock n) (LE.fault n)
      (runListener E LE s0 n)

/-- `create_payment` (lines 97-143): build the transaction document
(status `"pending"`, `confirmed_at` null), insert it, and answer with the
`Payment` model (which carries no private key).  The generated wallet,
its encoded secret key, the fresh uuid and the timestamp are inputs.
There is no duplicate check of any kind. -/
def createPayment (merchant_id : String) (req : PaymentRequest)
    (wallet_address private_key_encoded uuid : String) (now : ℕ)
    (store : List Transaction) : List Transaction × PaymentResponse :=
  let transaction : Transaction :=
    ⟨uuid, merchant_id, req.payment_id, wallet_address, private_key_encoded,
     req.amount, "pending", none, now, none, req.metadata⟩
  let payment : Payment :=
    ⟨uuid, req.payment_id, wallet_address, req.amount, "pending", none, now,
     none, req.metadata⟩
  (store ++ [transaction], ⟨true, payment⟩)

/-- `get_payment` (lines 145-170): `find_one` on `payment_id` and
`merchant_id`, 404 when absent. -/
def getPayment (store : List Transaction) (merchant_id payment_id : String) :
    Except String PaymentResponse :=
  match store.find? (fun t =>
      t.payment_id == payment_id && t.merchant_id == merchant_id) with
  | none => .error ("Payment not found")
  | some transaction => .ok ⟨true, paymentOfTx transaction⟩

/-- Stable insertion for descending `created_at` order, modelling
`.sort("created_at", -1)`. -/
def insertByCreated (t : Transaction) : List Transaction → List Transaction
  | [] => [t]
  | h :: rest =>
      if t.created_at ≤ h.created_at then h :: insertByCreated t rest
      else t :: h :: rest

/-- Sort by `created_at` descending (model of the Mongo sort). -/
def sortByCreatedDesc (l : List Transaction) : List Transaction :=
  l.foldr insertByCreated []

/-- `list_payments` (lines 172-212): filter by merchant and (truthy)
status, count, sort by `created_at` descending, skip/limit, and map to the
public `Payment` model. -/
def listPayments (store : List Transaction) (merchant_id : String)
    (status : Option String) (limit offset : ℕ) : PaymentListResponse :=
  let query : Transaction → Bool := fun t =>
    t.merchant_id == merchant_id &&
      (match status with
       | some st => if st = "" then true else t.status == st
       | none => true)
  let matching := store.filter query
  let page := ((sortByCreatedDesc matching).drop offset).take limit
  ⟨true, page.map paymentOfTx, matching.length, limit, offset⟩

/-- The `create_merchant` response dictionary (line 283): every stored
key-value pair except `default_wallet_private_key`. -/
def merchantResponseOf (m : Merchant) : List (String × String) :=
  [("merchant_id", m.merchant_id), ("name", m.name), ("api_key", m.api_key),
   ("webhook_url", m.webhook_url.getD ""),
   ("default_wallet", m.default_wallet),
   ("created_at", toString m.created_at)]

/-- `create_merchant` (lines 249-284), after admin authentication: store
the full record (private key included), answer with the filtered
dictionary. -/
def createMerchant (name webhook_url merchant_id api_key
    default_wallet_address default_wallet_private_key : String) (now : ℕ)
    (merchants : List Merchant) : List Merchant × List (String × String) :=
  let m : Merchant :=
    ⟨merchant_id, name, api_key, some webhook_url, default_wallet_address,
     default_wallet_private_key, now⟩
  (merchants ++ [m], merchantResponseOf m)

/-- The operations that touch the `transactions` collection (creation,
reconciliation steps, whole listener cycles, reads). -/
inductive SysOp where
  | createOp (merchant_id : String) (req : PaymentRequest)
      (wallet_address private_key uuid : String) (now : ℕ)
  | checkOp (L : LedgerView) (now : ℕ) (t : Transaction)
  | cycleOp (L : LedgerView) (now : ℕ) (fault : Option String)
  | readGet (merchant_id payment_id : String)
  | readList (merchant_id : String) (status : Option String) (limit offset : ℕ)

/-- Effect of one operation on the `transactions` collection.  Reads do
not mutate. -/
def applyOp (E : Env) (store : List Transaction) : SysOp → List Transaction
  | .createOp mid req wa pk u now => (createPayment mid req wa pk u now store).1
  | .checkOp L now t => (checkPaymentReceived E L now store t).store
  | .cycleOp L now fault => (listenerCycle E L now fault (initState store)).store
  | .readGet _ _ => store
  | .readList _ _ _ _ => store

/-- Effect of a sequence of operations. -/
def applyOps (E : Env) (store : List Transaction) (ops : List SysOp) :
    List Transaction :=
  ops.foldl (applyOp E) store

/-- The `confirmed_at` / `status` coupling invariant. -/
def okRecord (t : Transaction) : Prop :=
  t.status = "confirmed" ↔ t.confirmed_at ≠ none

/-- How many of the documents handed to the notifier carry id `i`. -/
def notifCount (l : List Transaction) (i : String) : ℕ :=
  (l.filter (fun u => u.id == i)).length

/-- The ledger answers without error and reports insufficiency for `t`:
either the address has no token accounts yet, or the first account's
balance is below the requested amount. -/
def insufficientAt (L : LedgerView) (t : Transaction) : Prop :=
  L.tokenAccounts t.wallet_address = .ok [] ∨
  ∃ a rest q, L.tokenAccounts t.wallet_address = .ok (a :: rest) ∧
    L.balance a = .ok q ∧ q < t.amount

/-- JSON text of an optional string field. -/
def jsonOptStr (o : Option String) : String :=
  match o with
  | none => "null"
  | some s => "\"" ++ s ++ "\""

/-- JSON text of an optional timestamp field. -/
def jsonOptNat (o : Option ℕ) : String :=
  match o with
  | none => "null"
  | some n => toString n

/-- Deterministic serialization of the `Payment` part of the webhook body
(`payload.dict()` passed to `client.post(..., json=...)`, line 242). -/
def serializePayment (p : Payment) : String :=
  "\x7b\"id\":\"" ++ p.id ++ "\",\"payment_id\":\"" ++ p.payment_id ++
  "\",\"wallet_address\":\"" ++ p.wallet_address ++
  "\",\"amount\":" ++ toString p.amount ++
  ",\"status\":\"" ++ p.status ++
  "\",\"tx_signature\":" ++ jsonOptStr p.tx_signature ++
  ",\"created_at\":" ++ toString p.created_at ++
  ",\"confirmed_at\":" ++ jsonOptNat p.confirmed_at ++
  ",\"metadata\":" ++ jsonOptStr p.metadata ++ "\x7d"

/-- Deterministic serialization of the full webhook body. -/
def serializeWebhookPayload (w : WebhookPayload) : String :=
  "\x7b\"event\":\"" ++ w.event ++ "\",\"payment\":" ++
  serializePayment w.payment ++ "\x7d"

/-- Difference of the bit lengths of numerator and denominator: the
first candidate for the floor of the base-2 logarithm of a positive
rational. -/
def bitExp (q : ℚ) : ℤ :=
  (Nat.log2 q.num.toNat : ℤ) - (Nat.log2 q.den : ℤ)

/-- Floor of the base-2 logarithm of a positive rational: the candidate
`bitExp q`, corrected down by one when `2 ^ bitExp q` exceeds `q`. -/
def floorLog2 (q : ℚ) : ℤ :=
  if 0 ≤ bitExp q then
    if 2 ^ (bitExp q).toNat * q.den ≤ q.num.toNat then bitExp q
    else bitExp q - 1
  else
    if q.den ≤ q.num.toNat * 2 ^ (-(bitExp q)).toNat then bitExp q
    else bitExp q - 1

/-- Round a rational to the nearest integer, ties to even. -/
def roundHalfEven (q : ℚ) : ℤ :=
  if q - ⌊q⌋ < 1 / 2 then ⌊q⌋
  else if 1 / 2 < q - ⌊q⌋ then ⌊q⌋ + 1
  else if ⌊q⌋ % 2 = 0 then ⌊q⌋ else ⌊q⌋ + 1

/-- Exact value of the IEEE-754 binary64 (Python `float`) nearest a
positive rational in the normal range: round to the nearest multiple of
`2 ^ (⌊log₂ q⌋ - 52)`, ties to even.  Both the pydantic `amount: float`
parse and `float(account_info.value.ui_amount)` factor through this. -/
def roundF64 (q : ℚ) : ℚ :=
  if q ≤ 0 then q
  else (roundHalfEven (q / 2 ^ (floorLog2 q - 52)) : ℚ) * 2 ^ (floorLog2 q - 52)

/-! ## Concrete fixtures used by closed evaluations -/

/-- A merchant with a registered webhook URL. -/
def sampleMerchant : Merchant :=
  ⟨"m1", "Acme", "key1", some ("https://hook.example"), "w0", "sk0", 0⟩

/-- A delivery oracle whose every post succeeds. -/
def okDeliver : String → WebhookPayload → Except String Unit :=
  fun _ _ => .ok ()

/-- A delivery oracle whose every post raises. -/
def failDeliver : String → WebhookPayload → Except String Unit :=
  fun _ _ => .error ("connection refused")

def sampleEnv : Env := ⟨[sampleMerchant], okDeliver⟩

def failEnv : Env := ⟨[sampleMerchant], failDeliver⟩

/-- A ledger in which one owner address has one token account with the
given balance, and every other address has no accounts. -/
def ledgerWith (addr acct : String) (q : ℚ) : LedgerView :=
  ⟨fun a => if a = addr then .ok [acct] else .ok [],
   fun c => if c = acct then .ok q else .error ("no account")⟩

/-- A loop environment with a constant ledger, integer clock, no faults. -/
def steadyLoopEnv (L : LedgerView) : LoopEnv :=
  ⟨fun _ => L, fun k => k, fun _ => none⟩

def txConfirmed : Transaction :=
  ⟨"p1", "m1", "ext1", "addr1", "sk1", 10, "confirmed", none, 1, some 5, none⟩

def txPending : Transaction :=
  ⟨"p1", "m1", "ext1", "addr1", "sk1", 10, "pending", none, 1, none, none⟩

/-- A pending payment whose requested amount is the binary64 image of the
decimal 10000000000.000002. -/
def pendTxBig : Transaction :=
  ⟨"p1", "m1", "ext1", "addr1", "sk1", roundF64 (((10:ℚ)^16 + 2)/10^6),
   "pending", none, 1, none, none⟩

/-- Same pending payment stored with a different private key. -/
def txPendingAltKey : Transaction :=
  ⟨"p1", "m1", "ext1", "addr1", "OTHERKEY", 10, "pending", none, 1, none, none⟩

/-- A merchant without a registered webhook URL. -/
def noUrlMerchant : Merchant := ⟨"m1", "NoHook", "key2", none, "w2", "sk2", 0⟩

def noUrlEnv : Env := ⟨[noUrlMerchant], okDeliver⟩

def emptyEnv : Env := ⟨[], okDeliver⟩

def req1 : PaymentRequest := ⟨10, "ext1", none⟩

def dupStore1 : List Transaction :=
  (createPayment "m1" req1 "w1" "sk1" "u1" 1 []).1

/-- A second create call with the same `(merchant_id, payment_id)` pair. -/
def dupResult : List Transaction × PaymentResponse :=
  createPayment "m1" req1 "w2" "sk2" "u2" 2 dupStore1

/-! ## Store-level helper lemmas -/

theorem beq_id_false {a b : String} (h : a ≠ b) : (a == b) = false :=
  beq_eq_false_iff_ne.mpr h

theorem confirmTx_id (t : Transaction) (now : ℕ) : (confirmTx t now).id = t.id :=
  rfl

theorem confirmTx_status (t : Transaction) (now : ℕ) :
    (confirmTx t now).status = "confirmed" :=
  rfl

theorem updateOne_map_id (s : List Transaction) (i : String) (now : ℕ) :
    (updateOne s i now).map (fun t => t.id) = s.map (fun t => t.id) := by
  induction s with
  | nil => rfl
  | cons t rest ih =>
      simp only [updateOne]
      split
      · simp [confirmTx_id]
      · simp only [List.map_cons, ih]

theorem updateOne_of_getById_none {s : List Transaction} {i : String}
    (h : getById s i = none) (now : ℕ) : updateOne s i now = s := by
  induction s with
  | nil => rfl
  | cons t rest ih =>
      simp only [getById, List.find?] at h
      cases hb : (t.id == i) with
      | true => rw [hb] at h; simp at h
      | false =>
          rw [hb] at h
          simp only [updateOne, hb, Bool.false_eq_true, if_false]
          rw [ih h]

theorem getById_updateOne_self {s : List Transaction} {i : String}
    {t : Transaction} (h : getById s i = some t) (now : ℕ) :
    getById (updateOne s i now) i = some (confirmTx t now) := by
  induction s with
  | nil => simp [getById] at h
  | cons a rest ih =>
      cases hb : (a.id == i) with
      | true =>
          simp only [getById, List.find?, hb] at h
          simp only [Option.some.injEq] at h
          subst h
          have hid2 : ((confirmTx a now).id == i) = true := hb
          simp only [updateOne, hb, if_true, getById, List.find?, hid2]
      | false =>
          simp only [getById, List.find?, hb] at h
          simp only [updateOne, hb, Bool.false_eq_true, if_false, getById,
            List.find?]
          exact ih h

theorem getById_updateOne_ne {i j : String} (h : i ≠ j)
    (s : List Transaction) (now : ℕ) :
    getById (updateOne s j now) i = getById s i := by
  induction s with
  | nil => rfl
  | cons t rest ih =>
      cases hb : (t.id == j) with
      | true =>
          have htj : t.id = j := eq_of_beq hb
          have hti : (t.id == i) = false := by
            apply beq_id_false
            rw [htj]
            exact fun hc => h hc.symm
          have hti2 : ((confirmTx t now).id == i) = false := hti
          simp only [updateOne, hb, if_true, getById, List.find?, hti, hti2]
      | false =>
          simp only [updateOne, hb, Bool.false_eq_true, if_false, getById,
            List.find?]
          cases hti : (t.id == i) with
          | true => rfl
          | false => exact ih

theorem statusOf_updateOne_confirmed {s : List Transaction} {i : String}
    (h : statusOf s i = some "confirmed") (j : String) (now : ℕ) :
    statusOf (updateOne s j now) i = some "confirmed" := by
  by_cases hij : i = j
  · subst hij
    simp only [statusOf] at h
    cases hg : getById s i with
    | none => rw [hg] at h; simp at h
    | some t =>
        simp [statusOf, getById_updateOne_self hg now, confirmTx_status]
  · simp only [statusOf, getById_updateOne_ne hij s now]
    exact h

theorem getById_id {s : List Transaction} {i : String} {u : Transaction}
    (h : getById s i = some u) : u.id = i := by
  unfold getById at h
  have hb := List.find?_some h
  exact eq_of_beq hb

theorem getById_append_of_some {s : List Transaction} {i : String}
    {u : Transaction} (h : getById s i = some u) (l : List Transaction) :
    getById (s ++ l) i = some u := by
  induction s with
  | nil => simp [getById] at h
  | cons t rest ih =>
      cases hb : (t.id == i) with
      | true =>
          simp only [getById, List.find?, hb] at h ⊢
          exact h
      | false =>
          simp only [getById, List.cons_append, List.find?, hb] at h ⊢
          exact ih h

/-! ## Lemmas about a single reconciliation step -/

theorem check_store_cases (E : Env) (L : LedgerView) (now : ℕ)
    (store : List Transaction) (t : Transaction) :
    (checkPaymentReceived E L now store t).store = store ∨
    (checkPaymentReceived E L now store t).store = updateOne store t.id now := by
  cases hTA : L.tokenAccounts t.wallet_address with
  | error e => left; simp [checkPaymentReceived, hTA]
  | ok accounts =>
      cases accounts with
      | nil => left; simp [checkPaymentReceived, hTA]
      | cons a rest =>
          cases hB : L.balance a with
          | error e => left; simp [checkPaymentReceived, hTA, hB]
          | ok q =>
              by_cases hle : t.amount ≤ q
              · right
                simp only [checkPaymentReceived, hTA, hB, if_pos hle]
                cases hg : getById (updateOne store t.id now) t.id with
                | none => simp [hg]
                | some u => simp [hg]
              · left
                simp [checkPaymentReceived, hTA, hB, if_neg hle]

theorem check_notified_shape (E : Env) (L : LedgerView) (now : ℕ)
    (store : List Transaction) (t : Transaction) :
    (checkPaymentReceived E L now store t).notified = [] ∨
    ∃ u, (checkPaymentReceived E L now store t).notified = [u] ∧
      u.id = t.id ∧ u.status = "confirmed" ∧
      getById ((checkPaymentReceived E L now store t).store) t.id = some u ∧
      (checkPaymentReceived E L now store t).store
        = updateOne store t.id now := by
  cases hTA : L.tokenAccounts t.wallet_address with
  | error e => left; simp [checkPaymentReceived, hTA]
  | ok accounts =>
      cases accounts with
      | nil => left; simp [checkPaymentReceived, hTA]
      | cons a rest =>
          cases hB : L.balance a with
          | error e => left; simp [checkPaymentReceived, hTA, hB]
          | ok q =>
              by_cases hle : t.amount ≤ q
              · simp only [checkPaymentReceived, hTA, hB, if_pos hle]
                cases hg : getById (updateOne store t.id now) t.id with
                | none => left; simp [hg]
                | some u =>
                    right
                    refine ⟨u, by simp [hg], ?_, ?_, by simp [hg], by simp [hg]⟩
                    · cases hg0 : getById store t.id with
                      | none =>
                          rw [updateOne_of_getById_none hg0 now, hg0] at hg
                          exact absurd hg (by simp)
                      | some t0 =>
                          rw [getById_updateOne_self hg0 now] at hg
                          have hu : u = confirmTx t0 now := by
                            simpa using hg.symm
                          rw [hu, confirmTx_id]
                          exact getById_id hg0
                    · cases hg0 : getById store t.id with
                      | none =>
                          rw [updateOne_of_getById_none hg0 now, hg0] at hg
                          exact absurd hg (by simp)
                      | some t0 =>
                          rw [getById_updateOne_self hg0 now] at hg
                          have hu : u = confirmTx t0 now := by
                            simpa using hg.symm
                          rw [hu, confirmTx_status]
              · left
                simp [checkPaymentReceived, hTA, hB, if_neg hle]

theorem check_of_insufficient {L : LedgerView} {t : Transaction}
    (h : insufficientAt L t) (E : Env) (now : ℕ) (store : List Transaction) :
    checkPaymentReceived E L now store t = ⟨store, [], [], []⟩ := by
  rcases h with hempty | ⟨a, rest, q, hTA, hB, hlt⟩
  · simp [checkPaymentReceived, hempty]
  · simp [checkPaymentReceived, hTA, hB, if_neg (not_le.mpr hlt)]

theorem check_statusOf_confirmed {store : List Transaction} {i : String}
    (h : statusOf store i = some "confirmed") (E : Env) (L : LedgerView)
    (now : ℕ) (t : Transaction) :
    statusOf ((checkPaymentReceived E L now store t).store) i
      = some "confirmed" := by
  rcases check_store_cases E L now store t with hc | hc
  · rw [hc]; exact h
  · rw [hc]; exact statusOf_updateOne_confirmed h t.id now

theorem check_getById_ne {i : String} {t : Transaction} (h : i ≠ t.id)
    (E : Env) (L : LedgerView) (now : ℕ) (store : List Transaction) :
    getById ((checkPaymentReceived E L now store t).store) i
      = getById store i := by
  rcases check_store_cases E L now store t with hc | hc
  · rw [hc]
  · rw [hc]; exact getById_updateOne_ne h store now

theorem check_map_id (E : Env) (L : LedgerView) (now : ℕ)
    (store : List Transaction) (t : Transaction) :
    ((checkPaymentReceived E L now store t).store).map (fun u => u.id)
      = store.map (fun u => u.id) := by
  rcases check_store_cases E L now store t with hc | hc
  · rw [hc]
  · rw [hc]; exact updateOne_map_id store t.id now

theorem sendWebhook_sent {E : Env} {u : Transaction}
    {p : String × WebhookPayload} (h : p ∈ (sendWebhookToMerchant E u).1) :
    p.2 = webhookPayloadOf u := by
  unfold sendWebhookToMerchant at h
  cases hm : getMerchant E u.merchant_id with
  | none => simp only [hm] at h; simp at h
  | some m =>
      simp only [hm] at h
      cases hw : m.webhook_url with
      | none => simp only [hw] at h; simp at h
      | some url =>
          simp only [hw] at h
          by_cases hemp : url = ""
          · simp only [if_pos hemp] at h; simp at h
          · simp only [if_neg hemp] at h
            cases hd : E.deliver url (webhookPayloadOf u) with
            | ok v =>
                simp only [hd] at h
                have hps := List.mem_singleton.mp h
                rw [hps]
            | error e =>
                simp only [hd] at h
                have hps := List.mem_singleton.mp h
                rw [hps]

/-! ## Batch-level lemmas -/

theorem notifCount_append (a b : List Transaction) (i : String) :
    notifCount (a ++ b) i = notifCount a i + notifCount b i := by
  simp [notifCount, List.filter_append]

theorem check_notifCount_ne {t : Transaction} {i : String} (hti : t.id ≠ i)
    (E : Env) (L : LedgerView) (now : ℕ) (store : List Transaction) :
    notifCount (checkPaymentReceived E L now store t).notified i = 0 := by
  rcases check_notified_shape E L now store t with hn | ⟨u, hn, huid, -, -, -⟩
  · simp [notifCount, hn]
  · have hui : u.id ≠ i := by rw [huid]; exact hti
    simp [notifCount, hn, beq_id_false hui]

theorem runBatch_map_id (E : Env) (L : LedgerView) (now : ℕ)
    (store : List Transaction) (txs : List Transaction) :
    (runBatch E L now store txs).store.map (fun u => u.id)
      = store.map (fun u => u.id) := by
  induction txs generalizing store with
  | nil => rfl
  | cons t rest ih =>
      simp only [runBatch]
      rw [ih]
      exact check_map_id E L now store t

theorem runBatch_statusOf_confirmed {i : String} (E : Env) (L : LedgerView)
    (now : ℕ) (txs : List Transaction) :
    ∀ store : List Transaction, statusOf store i = some "confirmed" →
      statusOf (runBatch E L now store txs).store i = some "confirmed" := by
  induction txs with
  | nil => intro store h; exact h
  | cons t rest ih =>
      intro store h
      simp only [runBatch]
      exact ih _ (check_statusOf_confirmed h E L now t)

theorem runBatch_notin {i : String} (E : Env) (L : LedgerView) (now : ℕ)
    (txs : List Transaction) :
    ∀ store : List Transaction, (∀ t ∈ txs, t.id ≠ i) →
      getById (runBatch E L now store txs).store i = getById store i ∧
      notifCount (runBatch E L now store txs).notified i = 0 := by
  induction txs with
  | nil => intro store _; exact ⟨rfl, rfl⟩
  | cons t rest ih =>
      intro store h
      have hti : t.id ≠ i := h t (by simp)
      have hrest : ∀ u ∈ rest, u.id ≠ i := fun u hu => h u (by simp [hu])
      obtain ⟨ih1, ih2⟩ := ih (checkPaymentReceived E L now store t).store hrest
      constructor
      · simp only [runBatch]
        rw [ih1]
        exact check_getById_ne (fun hc => hti hc.symm) E L now store
      · simp only [runBatch, notifCount_append]
        rw [check_notifCount_ne hti E L now store, ih2]

theorem runBatch_notif_le_one {i : String} (E : Env) (L : LedgerView)
    (now : ℕ) (txs : List Transaction)
    (hnd : (txs.map (fun t => t.id)).Nodup) :
    ∀ store : List Transaction,
      notifCount (runBatch E L now store txs).notified i ≤ 1 ∧
      (notifCount (runBatch E L now store txs).notified i = 1 →
        statusOf (runBatch E L now store txs).store i = some "confirmed") := by
  induction txs with
  | nil => intro store; exact ⟨by simp [runBatch, notifCount], by simp [runBatch, notifCount]⟩
  | cons t rest ih =>
      intro store
      simp only [List.map_cons, List.nodup_cons] at hnd
      obtain ⟨hninr, hndr⟩ := hnd
      by_cases hti : t.id = i
      · -- the only snapshot that can notify `i`
        have hrest : ∀ u ∈ rest, u.id ≠ i := by
          intro u hu hc
          apply hninr
          rw [hti, ← hc]
          exact List.mem_map_of_mem (fun v => v.id) hu
        obtain ⟨hg2, hc2⟩ :=
          runBatch_notin E L now rest (checkPaymentReceived E L now store t).store hrest
        rcases check_notified_shape E L now store t with hn | ⟨u, hn, huid, hust, hug, -⟩
        · have hcr : notifCount (checkPaymentReceived E L now store t).notified i = 0 := by
            simp [notifCount, hn]
          constructor
          · simp only [runBatch, notifCount_append]
            rw [hcr, hc2]
            simp
          · intro hcnt
            exfalso
            simp only [runBatch, notifCount_append] at hcnt
            rw [hcr, hc2] at hcnt
            simp at hcnt
        · have hcnt1 : notifCount (checkPaymentReceived E L now store t).notified i = 1 := by
            have hui : (u.id == i) = true := by
              rw [huid, hti]
              exact beq_self_eq_true i
            simp [notifCount, hn, hui]
          constructor
          · simp only [runBatch, notifCount_append]
            rw [hcnt1, hc2]
          · intro _
            simp only [runBatch]
            rw [statusOf, hg2, ← hti, hug]
            simp [hust]
      · -- snapshots with a different id never touch record `i`
        obtain ⟨ihle, ihst⟩ := ih hndr (checkPaymentReceived E L now store t).store
        constructor
        · simp only [runBatch, notifCount_append]
          rw [check_notifCount_ne hti E L now store]
          simpa using ihle
        · intro hcnt
          simp only [runBatch, notifCount_append] at hcnt ⊢
          rw [check_notifCount_ne hti E L now store] at hcnt
          simp only [Nat.zero_add] at hcnt
          exact ihst hcnt

/-! ## Pending-scan lemmas -/

theorem pendingList_subset {store : List Transaction} {t : Transaction}
    (h : t ∈ pendingList store) : t ∈ store ∧ t.status = "pending" := by
  simp only [pendingList] at h
  have h1 := List.take_subset 100 _ h
  have h2 := List.mem_filter.mp h1
  exact ⟨h2.1, eq_of_beq h2.2⟩

theorem pendingList_map_id_nodup {store : List Transaction}
    (h : (store.map (fun t => t.id)).Nodup) :
    ((pendingList store).map (fun t => t.id)).Nodup := by
  apply List.Nodup.sublist _ h
  apply List.Sublist.map
  exact (List.take_sublist 100 _).trans (List.filter_sublist store)

theorem getById_of_mem_nodup {store : List Transaction} {t : Transaction}
    (hnd : (store.map (fun u => u.id)).Nodup) (hm : t ∈ store) :
    getById store t.id = some t := by
  induction store with
  | nil => simp at hm
  | cons a rest ih =>
      simp only [List.map_cons, List.nodup_cons] at hnd
      rcases List.mem_cons.mp hm with rfl | hmr
      · simp [getById, List.find?]
      · have hane : a.id ≠ t.id := by
          intro hc
          apply hnd.1
          rw [hc]
          exact List.mem_map_of_mem (fun v => v.id) hmr
        simp only [getById, List.find?, beq_id_false hane]
        exact ih hnd.2 hmr

theorem pendingList_id_ne_of_confirmed {store : List Transaction} {i : String}
    (hnd : (store.map (fun u => u.id)).Nodup)
    (hconf : statusOf store i = some "confirmed") :
    ∀ t ∈ pendingList store, t.id ≠ i := by
  intro t ht hti
  obtain ⟨hmem, hpend⟩ := pendingList_subset ht
  have hg := getById_of_mem_nodup hnd hmem
  rw [hti] at hg
  rw [statusOf, hg] at hconf
  simp only [Option.map_some', Option.some.injEq] at hconf
  rw [hpend] at hconf
  exact absurd hconf (by decide)

/-! ## Listener-loop lemmas -/

theorem listenerCycle_map_id (E : Env) (L : LedgerView) (now : ℕ)
    (fault : Option String) (s : LoopState) :
    (listenerCycle E L now fault s).store.map (fun u => u.id)
      = s.store.map (fun u => u.id) := by
  cases fault with
  | some e => rfl
  | none =>
      simp only [listenerCycle]
      exact runBatch_map_id E L now s.store (pendingList s.store)

theorem listenerCycle_inv {i : String} (E : Env) (L : LedgerView) (now : ℕ)
    (fault : Option String) (s : LoopState)
    (hnd : (s.store.map (fun u => u.id)).Nodup)
    (h1 : notifCount s.notified i ≤ 1)
    (h2 : notifCount s.notified i = 1 →
      statusOf s.store i = some "confirmed") :
    notifCount (listenerCycle E L now fault s).notified i ≤ 1 ∧
    (notifCount (listenerCycle E L now fault s).notified i = 1 →
      statusOf (listenerCycle E L now fault s).store i = some "confirmed") := by
  cases fault with
  | some e => exact ⟨h1, h2⟩
  | none =>
      simp only [listenerCycle, notifCount_append]
      by_cases hs : statusOf s.store i = some "confirmed"
      · have hne := pendingList_id_ne_of_confirmed hnd hs
        obtain ⟨hg, hc⟩ :=
          runBatch_notin E L now (pendingList s.store) s.store hne
        have hst : statusOf
            (runBatch E L now s.store (pendingList s.store)).store i
              = some "confirmed" := by
          rw [statusOf, hg]
          exact hs
        rw [hc]
        exact ⟨by simpa using h1, fun _ => hst⟩
      · have hc0 : notifCount s.notified i = 0 := by
          rcases Nat.lt_or_ge (notifCount s.notified i) 1 with hlt | hge
          · omega
          · exact absurd (h2 (by omega)) hs
        obtain ⟨hble, hbst⟩ := runBatch_notif_le_one E L now
          (pendingList s.store) (pendingList_map_id_nodup hnd) s.store
        rw [hc0]
        constructor
        · simpa using hble
        · intro hcnt
          simp only [Nat.zero_add] at hcnt
          exact hbst hcnt

theorem runListener_inv {i : String} (E : Env) (LE : LoopEnv)
    (store : List Transaction)
    (hnd : (store.map (fun u => u.id)).Nodup) (n : ℕ) :
    ((runListener E LE (initState store) n).store.map (fun u => u.id)).Nodup ∧
    notifCount (runListener E LE (initState store) n).notified i ≤ 1 ∧
    (notifCount (runListener E LE (initState store) n).notified i = 1 →
      statusOf (runListener E LE (initState store) n).store i
        = some "confirmed") := by
  induction n with
  | zero =>
      refine ⟨hnd, by simp [initState, notifCount, runListener], ?_⟩
      intro hcnt
      simp [initState, notifCount, runListener] at hcnt
  | succ n ih =>
      obtain ⟨ihnd, ih1, ih2⟩ := ih
      have hstep := listenerCycle_inv E (LE.ledger n) (LE.clock n) (LE.fault n)
        (runListener E LE (initState store) n) ihnd ih1 ih2
      refine ⟨?_, hstep.1, hstep.2⟩
      rw [runListener, listenerCycle_map_id]
      exact ihnd

theorem runBatch_pending_preserved {t : Transaction} {L : LedgerView}
    (hins : insufficientAt L t) (E : Env) (now : ℕ)
    (txs : List Transaction) :
    ∀ store : List Transaction, (∀ u ∈ txs, u.id = t.id → u = t) →
      getById (runBatch E L now store txs).store t.id = getById store t.id ∧
      notifCount (runBatch E L now store txs).notified t.id = 0 := by
  induction txs with
  | nil => intro store _; exact ⟨rfl, rfl⟩
  | cons u rest ih =>
      intro store huniq
      have hrest : ∀ v ∈ rest, v.id = t.id → v = t :=
        fun v hv => huniq v (by simp [hv])
      by_cases hui : u.id = t.id
      · have hut : u = t := huniq u (by simp) hui
        subst hut
        have hchk := check_of_insufficient hins E now store
        obtain ⟨ih1, ih2⟩ := ih (checkPaymentReceived E L now store u).store hrest
        constructor
        · simp only [runBatch]
          rw [ih1, hchk]
        · simp only [runBatch, notifCount_append]
          rw [ih2, hchk]
          simp [notifCount]
      · obtain ⟨ih1, ih2⟩ := ih (checkPaymentReceived E L now store u).store hrest
        constructor
        · simp only [runBatch]
          rw [ih1]
          exact check_getById_ne (fun hc => hui hc.symm) E L now store
        · simp only [runBatch, notifCount_append]
          rw [check_notifCount_ne hui E L now store, ih2]

theorem listenerCycle_pending_preserved {t : Transaction} {L : LedgerView}
    (hins : insufficientAt L t) (E : Env) (now : ℕ) (fault : Option String)
    (s : LoopState) (hnd : (s.store.map (fun u => u.id)).Nodup)
    (hg : getById s.store t.id = some t) :
    getById (listenerCycle E L now fault s).store t.id = some t ∧
    notifCount (listenerCycle E L now fault s).notified t.id
      = notifCount s.notified t.id := by
  cases fault with
  | some e => exact ⟨hg, rfl⟩
  | none =>
      have huniq : ∀ u ∈ pendingList s.store, u.id = t.id → u = t := by
        intro u hu hui
        have hmem := (pendingList_subset hu).1
        have hgu := getById_of_mem_nodup hnd hmem
        rw [hui, hg] at hgu
        exact (Option.some.inj hgu).symm
      obtain ⟨h1, h2⟩ :=
        runBatch_pending_preserved hins E now (pendingList s.store) s.store huniq
      constructor
      · simp only [listenerCycle]
        rw [h1]
        exact hg
      · simp only [listenerCycle, notifCount_append]
        rw [h2]
        omega

theorem runListener_map_id (E : Env) (LE : LoopEnv)
    (store : List Transaction) : ∀ n : ℕ,
    (runListener E LE (initState store) n).store.map (fun u => u.id)
      = store.map (fun u => u.id) := by
  intro n
  induction n with
  | zero => rfl
  | succ m ihm =>
      rw [runListener, listenerCycle_map_id]
      exact ihm

theorem runListener_pending_preserved {t : Transaction} (E : Env)
    (LE : LoopEnv) (store : List Transaction)
    (hnd : (store.map (fun u => u.id)).Nodup)
    (hg : getById store t.id = some t) (n : ℕ)
    (hins : ∀ k, k < n → insufficientAt (LE.ledger k) t) :
    getById (runListener E LE (initState store) n).store t.id = some t ∧
    notifCount (runListener E LE (initState store) n).notified t.id = 0 := by
  induction n with
  | zero => exact ⟨hg, rfl⟩
  | succ n ih =>
      obtain ⟨ih1, ih2⟩ := ih (fun k hk => hins k (Nat.lt_succ_of_lt hk))
      have ihnd : ((runListener E LE (initState store) n).store.map
          (fun u => u.id)).Nodup := by
        rw [runListener_map_id]
        exact hnd
      obtain ⟨h1, h2⟩ := listenerCycle_pending_preserved
        (hins n (Nat.lt_succ_self n)) E (LE.clock n) (LE.fault n)
        (runListener E LE (initState store) n) ihnd ih1
      exact ⟨h1, by rw [runListener, h2, ih2]⟩

/-! ## Operation-sequence lemmas -/

theorem okRecord_confirmTx (t : Transaction) (now : ℕ) :
    okRecord (confirmTx t now) := by
  simp [okRecord, confirmTx]

theorem okRecord_updateOne {s : List Transaction}
    (h : ∀ t ∈ s, okRecord t) (i : String) (now : ℕ) :
    ∀ t ∈ updateOne s i now, okRecord t := by
  induction s with
  | nil => intro t ht; simp [updateOne] at ht
  | cons a rest ih =>
      simp only [updateOne]
      split
      · intro t ht
        rcases List.mem_cons.mp ht with rfl | hmr
        · exact okRecord_confirmTx a now
        · exact h t (by simp [hmr])
      · intro t ht
        rcases List.mem_cons.mp ht with rfl | hmr
        · exact h t (by simp)
        · exact ih (fun u hu => h u (by simp [hu])) t hmr

theorem okRecord_check {store : List Transaction}
    (h : ∀ t ∈ store, okRecord t) (E : Env) (L : LedgerView) (now : ℕ)
    (t : Transaction) :
    ∀ u ∈ (checkPaymentReceived E L now store t).store, okRecord u := by
  rcases check_store_cases E L now store t with hc | hc
  · rw [hc]; exact h
  · rw [hc]; exact okRecord_updateOne h t.id now

theorem okRecord_runBatch (E : Env)
    (L : LedgerView) (now : ℕ) (txs : List Transaction) :
    ∀ store : List Transaction, (∀ t ∈ store, okRecord t) →
      ∀ u ∈ (runBatch E L now store txs).store, okRecord u := by
  induction txs with
  | nil => intro store h; exact h
  | cons t rest ih =>
      intro store h
      simp only [runBatch]
      exact ih _ (okRecord_check h E L now t)

theorem okRecord_cycle {store : List Transaction}
    (h : ∀ t ∈ store, okRecord t) (E : Env) (L : LedgerView) (now : ℕ)
    (fault : Option String) :
    ∀ u ∈ (listenerCycle E L now fault (initState store)).store, okRecord u := by
  cases fault with
  | some e => exact h
  | none =>
      simp only [listenerCycle]
      exact okRecord_runBatch E L now (pendingList store) store h

theorem okRecord_applyOp {store : List Transaction}
    (h : ∀ t ∈ store, okRecord t) (E : Env) (op : SysOp) :
    ∀ u ∈ applyOp E store op, okRecord u := by
  cases op with
  | createOp mid req wa pk u now =>
      intro v hv
      simp only [applyOp, createPayment] at hv
      rcases List.mem_append.mp hv with hm | hm
      · exact h v hm
      · have hveq := List.mem_singleton.mp hm
        subst hveq
        simp [okRecord]
  | checkOp L now t => exact okRecord_check h E L now t
  | cycleOp L now fault => exact okRecord_cycle h E L now fault
  | readGet mid pid => exact h
  | readList mid st lim off => exact h

theorem okRecord_applyOps (E : Env) (ops : List SysOp) :
    ∀ store : List Transaction, (∀ t ∈ store, okRecord t) →
      ∀ u ∈ applyOps E store ops, okRecord u := by
  induction ops with
  | nil => intro store h; exact h
  | cons op rest ih =>
      intro store h
      simp only [applyOps, List.foldl_cons]
      exact ih _ (okRecord_applyOp h E op)

theorem statusOf_append {s : List Transaction} {i : String}
    (h : statusOf s i = some "confirmed") (l : List Transaction) :
    statusOf (s ++ l) i = some "confirmed" := by
  simp only [statusOf] at h ⊢
  cases hg : getById s i with
  | none => rw [hg] at h; simp at h
  | some u =>
      rw [hg] at h
      rw [getById_append_of_some hg l]
      exact h

theorem statusOf_applyOp_confirmed {store : List Transaction} {i : String}
    (h : statusOf store i = some "confirmed") (E : Env) (op : SysOp) :
    statusOf (applyOp E store op) i = some "confirmed" := by
  cases op with
  | createOp mid req wa pk u now =>
      simp only [applyOp, createPayment]
      exact statusOf_append h _
  | checkOp L now t => exact check_statusOf_confirmed h E L now t
  | cycleOp L now fault =>
      cases fault with
      | some e => exact h
      | none =>
          simp only [applyOp, listenerCycle]
          exact runBatch_statusOf_confirmed E L now _ store h
  | readGet mid pid => exact h
  | readList mid st lim off => exact h

theorem statusOf_applyOps_confirmed (E : Env) (ops : List SysOp) :
    ∀ store : List Transaction, ∀ i : String,
      statusOf store i = some "confirmed" →
      statusOf (applyOps E store ops) i = some "confirmed" := by
  induction ops with
  | nil => intro store i h; exact h
  | cons op rest ih =>
      intro store i h
      simp only [applyOps, List.foldl_cons]
      exact ih _ i (statusOf_applyOp_confirmed h E op)



/-! ## Binary64 rounding lemmas -/

theorem log2_unique {q : ℚ} {e f : ℤ} (he1 : (2:ℚ)^e ≤ q) (he2 : q < 2^(e+1))
    (hf1 : (2:ℚ)^f ≤ q) (hf2 : q < 2^(f+1)) : e = f := by
  have h1 : (2:ℚ)^e < 2^(f+1) := lt_of_le_of_lt he1 hf2
  have h2 : (2:ℚ)^f < 2^(e+1) := lt_of_le_of_lt hf1 he2
  rw [zpow_lt_zpow_iff_right₀ (by norm_num : (1:ℚ) < 2)] at h1 h2
  omega

theorem floorLog2_of {q : ℚ} {e : ℤ} (hq : 0 < q)
    (h1 : (2:ℚ)^e ≤ q) (h2 : q < 2^(e+1)) : floorLog2 q = e := by
  have hnum : 0 < q.num := Rat.num_pos.mpr hq
  have hden : 0 < q.den := q.pos
  have hn0 : q.num.toNat ≠ 0 := by omega
  have hd0 : q.den ≠ 0 := by omega
  have hnZ : (q.num.toNat : ℤ) = q.num := Int.toNat_of_nonneg (le_of_lt hnum)
  have hqnd : q = (q.num.toNat : ℚ) / (q.den : ℚ) := by
    have hc : ((q.num.toNat : ℚ)) = (q.num : ℚ) := by exact_mod_cast hnZ
    rw [hc]
    exact (Rat.num_div_den q).symm
  set n := q.num.toNat with hn
  set d := q.den with hd
  set a := Nat.log2 n with ha
  set b := Nat.log2 d with hb
  have Hn1 : 2 ^ a ≤ n := Nat.log2_self_le hn0
  have Hn2 : n < 2 ^ (a + 1) := Nat.lt_log2_self
  have Hd1 : 2 ^ b ≤ d := Nat.log2_self_le hd0
  have Hd2 : d < 2 ^ (b + 1) := Nat.lt_log2_self
  have hdQ : (0:ℚ) < (d:ℚ) := by positivity
  have Qn1 : (2:ℚ) ^ (a:ℤ) ≤ (n:ℚ) := by
    rw [zpow_natCast]
    exact_mod_cast Hn1
  have Qn2 : (n:ℚ) < 2 ^ ((a:ℤ) + 1) := by
    have hcast : ((a:ℤ) + 1) = ((a + 1 : ℕ) : ℤ) := by push_cast; ring
    rw [hcast, zpow_natCast]
    exact_mod_cast Hn2
  have Qd1 : (2:ℚ) ^ (b:ℤ) ≤ (d:ℚ) := by
    rw [zpow_natCast]
    exact_mod_cast Hd1
  have Qd2 : (d:ℚ) < 2 ^ ((b:ℤ) + 1) := by
    have hcast : ((b:ℤ) + 1) = ((b + 1 : ℕ) : ℤ) := by push_cast; ring
    rw [hcast, zpow_natCast]
    exact_mod_cast Hd2
  have hbe : bitExp q = (a:ℤ) - (b:ℤ) := by
    simp only [bitExp]
  set e0 : ℤ := (a : ℤ) - (b : ℤ) with he0
  have B1 : q < 2 ^ (e0 + 1) := by
    rw [hqnd, div_lt_iff₀ hdQ]
    calc (n:ℚ) < 2 ^ ((a:ℤ) + 1) := Qn2
    _ = 2 ^ (e0 + 1) * 2 ^ (b:ℤ) := by
        rw [← zpow_add₀ (by norm_num : (2:ℚ) ≠ 0)]
        congr 1
        omega
    _ ≤ 2 ^ (e0 + 1) * (d:ℚ) := by
        exact (mul_le_mul_left (by positivity)).mpr Qd1
  have B2 : (2:ℚ) ^ (e0 - 1) < q := by
    rw [hqnd, lt_div_iff₀ hdQ]
    calc (2:ℚ) ^ (e0 - 1) * (d:ℚ) < 2 ^ (e0 - 1) * 2 ^ ((b:ℤ) + 1) :=
          (mul_lt_mul_left (by positivity)).mpr Qd2
    _ = 2 ^ (a:ℤ) := by
        rw [← zpow_add₀ (by norm_num : (2:ℚ) ≠ 0)]
        congr 1
        omega
    _ ≤ (n:ℚ) := Qn1
  -- bridge between the integer test and the rational comparison
  have HtestPos : 0 ≤ e0 → ((2 ^ e0.toNat * d ≤ n) ↔ (2:ℚ) ^ e0 ≤ q) := by
    intro hce
    rw [hqnd, le_div_iff₀ hdQ]
    have hpow : (2:ℚ) ^ e0 = ((2 ^ e0.toNat : ℕ) : ℚ) := by
      conv_lhs => rw [← Int.toNat_of_nonneg hce]
      rw [zpow_natCast]
      push_cast
      ring
    rw [hpow]
    constructor
    · intro h
      calc ((2 ^ e0.toNat : ℕ) : ℚ) * (d:ℚ) = ((2 ^ e0.toNat * d : ℕ) : ℚ) := by push_cast; ring
      _ ≤ (n:ℚ) := by exact_mod_cast h
    · intro h
      have h2 : ((2 ^ e0.toNat * d : ℕ) : ℚ) ≤ (n:ℚ) := by push_cast at h ⊢; linarith
      exact_mod_cast h2
  have HtestNeg : ¬ 0 ≤ e0 → ((d ≤ n * 2 ^ (-e0).toNat) ↔ (2:ℚ) ^ e0 ≤ q) := by
    intro hce
    rw [hqnd, le_div_iff₀ hdQ]
    have hneg : (0:ℤ) ≤ -e0 := by omega
    have hpow : (2:ℚ) ^ (-e0) = ((2 ^ (-e0).toNat : ℕ) : ℚ) := by
      conv_lhs => rw [← Int.toNat_of_nonneg hneg]
      rw [zpow_natCast]
      push_cast
      ring
    have hinv : (2:ℚ) ^ e0 = (((2 ^ (-e0).toNat : ℕ) : ℚ))⁻¹ := by
      rw [← hpow, ← zpow_neg]
      congr 1
      omega
    have hposn : (0:ℚ) < ((2 ^ (-e0).toNat : ℕ) : ℚ) := by positivity
    rw [hinv]
    rw [inv_mul_le_iff₀ hposn]
    constructor
    · intro h
      calc (d:ℚ) ≤ ((n * 2 ^ (-e0).toNat : ℕ) : ℚ) := by exact_mod_cast h
      _ = (n:ℚ) * ((2 ^ (-e0).toNat : ℕ) : ℚ) := by push_cast; ring
      _ = ((2 ^ (-e0).toNat : ℕ) : ℚ) * (n:ℚ) := by ring
    · intro h
      have h2 : (d:ℚ) ≤ ((n * 2 ^ (-e0).toNat : ℕ) : ℚ) := by push_cast at h ⊢; linarith
      exact_mod_cast h2
  unfold floorLog2
  rw [hbe]
  by_cases hle : (2:ℚ) ^ e0 ≤ q
  · have he : e0 = e := log2_unique hle B1 h1 h2
    by_cases hce : 0 ≤ e0
    · rw [if_pos hce, if_pos ((HtestPos hce).mpr hle)]
      exact he
    · rw [if_neg hce, if_pos ((HtestNeg hce).mpr hle)]
      exact he
  · have hq2 : q < 2 ^ e0 := lt_of_not_le hle
    have hq2' : q < 2 ^ (e0 - 1 + 1) := by
      rw [(by ring : e0 - 1 + 1 = e0)]
      exact hq2
    have he : e0 - 1 = e := log2_unique (le_of_lt B2) hq2' h1 h2
    by_cases hce : 0 ≤ e0
    · rw [if_pos hce, if_neg (fun hcon => hle ((HtestPos hce).mp hcon))]
      exact he
    · rw [if_neg hce, if_neg (fun hcon => hle ((HtestNeg hce).mp hcon))]
      exact he

theorem roundHalfEven_of_lt {q : ℚ} {f : ℤ} (h1 : (f:ℚ) ≤ q)
    (h2 : q < (f:ℚ) + 1/2) : roundHalfEven q = f := by
  have hf : ⌊q⌋ = f := Int.floor_eq_iff.mpr ⟨h1, by linarith⟩
  unfold roundHalfEven
  rw [hf, if_pos (by linarith)]

theorem roundHalfEven_of_gt {q : ℚ} {f : ℤ} (h1 : (f:ℚ) + 1/2 < q)
    (h2 : q < (f:ℚ) + 1) : roundHalfEven q = f + 1 := by
  have hf : ⌊q⌋ = f := Int.floor_eq_iff.mpr ⟨by linarith, by linarith⟩
  unfold roundHalfEven
  rw [hf, if_neg (by linarith), if_pos (by linarith)]

theorem roundF64_of {q : ℚ} {e f : ℤ} (hq : 0 < q)
    (h1 : (2:ℚ)^e ≤ q) (h2 : q < 2^(e+1))
    (hf : roundHalfEven (q / 2 ^ (e - 52)) = f) :
    roundF64 q = (f : ℚ) * 2 ^ (e - 52) := by
  unfold roundF64
  rw [if_neg (not_le.mpr hq), floorLog2_of hq h1 h2, hf]


theorem roundF64_big1 :
    roundF64 (((10:ℚ)^16 + 1)/10^6)
      = (5242880000000001 : ℚ) * 2 ^ ((33:ℤ) - 52) :=
  roundF64_of (e := 33)
    (by norm_num) (by norm_num) (by norm_num)
    (roundHalfEven_of_gt (f := 5242880000000000) (by norm_num) (by norm_num))

theorem roundF64_big2 :
    roundF64 (((10:ℚ)^16 + 2)/10^6)
      = (5242880000000001 : ℚ) * 2 ^ ((33:ℤ) - 52) :=
  roundF64_of (e := 33)
    (by norm_num) (by norm_num) (by norm_num)
    (roundHalfEven_of_lt (f := 5242880000000001) (by norm_num) (by norm_num))

theorem roundF64_scenario :
    roundF64 ((9999999 : ℚ)/10^6)
      = (5629498971263167 : ℚ) * 2 ^ ((3:ℤ) - 52) :=
  roundF64_of (e := 3)
    (by norm_num) (by norm_num) (by norm_num)
    (roundHalfEven_of_gt (f := 5629498971263166) (by norm_num) (by norm_num))

theorem roundF64_ten : roundF64 (10 : ℚ) = 10 := by
  have h := roundF64_of (q := (10:ℚ)) (e := 3) (f := 5629499534213120)
    (by norm_num) (by norm_num) (by norm_num)
    (roundHalfEven_of_lt (f := 5629499534213120) (by norm_num) (by norm_num))
  rw [h]
  norm_num

theorem roundF64_scenario_lt_ten :
    roundF64 ((9999999 : ℚ)/10^6) < roundF64 (10 : ℚ) := by
  rw [roundF64_scenario, roundF64_ten]
  norm_num

/-! ## Further single-step lemmas -/

theorem check_sufficient {L : LedgerView} {store : List Transaction}
    {t : Transaction} {a : String} {rest : List String} {q : ℚ}
    (hg : getById store t.id = some t)
    (hTA : L.tokenAccounts t.wallet_address = .ok (a :: rest))
    (hB : L.balance a = .ok q) (hle : t.amount ≤ q)
    (E : Env) (now : ℕ) :
    (checkPaymentReceived E L now store t).store = updateOne store t.id now ∧
    (checkPaymentReceived E L now store t).notified = [confirmTx t now] ∧
    statusOf (checkPaymentReceived E L now store t).store t.id
      = some "confirmed" := by
  have hg2 := getById_updateOne_self hg now
  have hstore : (checkPaymentReceived E L now store t).store
      = updateOne store t.id now := by
    simp [checkPaymentReceived, hTA, hB, if_pos hle, hg2]
  refine ⟨hstore, ?_, ?_⟩
  · simp [checkPaymentReceived, hTA, hB, if_pos hle, hg2]
  · rw [hstore, statusOf, hg2]
    simp [confirmTx_status]

theorem check_sent_of_mem {E : Env} {L : LedgerView} {now : ℕ}
    {store : List Transaction} {t : Transaction} {p : String × WebhookPayload}
    (hp : p ∈ (checkPaymentReceived E L now store t).sent) :
    ∃ u, (checkPaymentReceived E L now store t).notified = [u] ∧
      getById ((checkPaymentReceived E L now store t).store) t.id = some u ∧
      p ∈ (sendWebhookToMerchant E u).1 := by
  cases hTA : L.tokenAccounts t.wallet_address with
  | error e => simp [checkPaymentReceived, hTA] at hp
  | ok accounts =>
      cases accounts with
      | nil => simp [checkPaymentReceived, hTA] at hp
      | cons a rest =>
          cases hB : L.balance a with
          | error e => simp [checkPaymentReceived, hTA, hB] at hp
          | ok q =>
              by_cases hle : t.amount ≤ q
              · simp only [checkPaymentReceived, hTA, hB, if_pos hle] at hp ⊢
                cases hg : getById (updateOne store t.id now) t.id with
                | none => simp [hg] at hp
                | some u =>
                    refine ⟨u, by simp [hg], by simp [hg], ?_⟩
                    simpa [hg] using hp
              · simp [checkPaymentReceived, hTA, hB, if_neg hle] at hp

theorem check_indep_deliver (E : Env)
    (d : String → WebhookPayload → Except String Unit) (L : LedgerView)
    (now : ℕ) (store : List Transaction) (t : Transaction) :
    (checkPaymentReceived ⟨E.merchants, d⟩ L now store t).store
      = (checkPaymentReceived E L now store t).store ∧
    (checkPaymentReceived ⟨E.merchants, d⟩ L now store t).notified
      = (checkPaymentReceived E L now store t).notified := by
  cases hTA : L.tokenAccounts t.wallet_address with
  | error e => simp [checkPaymentReceived, hTA]
  | ok accounts =>
      cases accounts with
      | nil => simp [checkPaymentReceived, hTA]
      | cons a rest =>
          cases hB : L.balance a with
          | error e => simp [checkPaymentReceived, hTA, hB]
          | ok q =>
              by_cases hle : t.amount ≤ q
              · simp only [checkPaymentReceived, hTA, hB, if_pos hle]
                cases hg : getById (updateOne store t.id now) t.id with
                | none => simp [hg]
                | some u => simp [hg]
              · simp [checkPaymentReceived, hTA, hB, if_neg hle]

/-! ## Private-key noninterference lemmas -/

theorem paymentOfTx_erasePk (t : Transaction) :
    paymentOfTx (erasePk t) = paymentOfTx t :=
  rfl

theorem getPayment_congr :
    ∀ {s s' : List Transaction}, s.map erasePk = s'.map erasePk →
      ∀ mid pid : String, getPayment s mid pid = getPayment s' mid pid := by
  intro s
  induction s with
  | nil =>
      intro s' h mid pid
      cases s' with
      | nil => rfl
      | cons t' rest' => simp at h
  | cons t rest ih =>
      intro s' h mid pid
      cases s' with
      | nil => simp at h
      | cons t' rest' =>
          simp only [List.map_cons, List.cons.injEq] at h
          obtain ⟨h1, h2⟩ := h
          have hq : (t.payment_id == pid && t.merchant_id == mid)
              = (t'.payment_id == pid && t'.merchant_id == mid) := by
            have e1 : t.payment_id = t'.payment_id :=
              congrArg (fun u => u.payment_id) h1
            have e2 : t.merchant_id = t'.merchant_id :=
              congrArg (fun u => u.merchant_id) h1
            rw [e1, e2]
          have hpay : paymentOfTx t = paymentOfTx t' := by
            rw [← paymentOfTx_erasePk t, ← paymentOfTx_erasePk t', h1]
          cases hb : (t.payment_id == pid && t.merchant_id == mid) with
          | true =>
              simp only [getPayment, List.find?, hb, hq.symm.trans hb]
              rw [hpay]
          | false =>
              simp only [getPayment, List.find?, hb, hq.symm.trans hb]
              exact ih h2 mid pid

theorem filter_congr_erasePk (q : Transaction → Bool)
    (hq : ∀ t, q (erasePk t) = q t) :
    ∀ {s s' : List Transaction}, s.map erasePk = s'.map erasePk →
      (s.filter q).map erasePk = (s'.filter q).map erasePk := by
  intro s
  induction s with
  | nil =>
      intro s' h
      cases s' with
      | nil => rfl
      | cons t' rest' => simp at h
  | cons t rest ih =>
      intro s' h
      cases s' with
      | nil => simp at h
      | cons t' rest' =>
          simp only [List.map_cons, List.cons.injEq] at h
          obtain ⟨h1, h2⟩ := h
          have hqq : q t = q t' := by
            rw [← hq t, ← hq t', h1]
          cases hb : q t with
          | true =>
              simp only [List.filter_cons, hb, hqq.symm.trans hb, if_true]
              simp only [List.map_cons, List.cons.injEq]
              exact ⟨h1, ih h2⟩
          | false =>
              simp only [List.filter_cons, hb, hqq.symm.trans hb,
                Bool.false_eq_true, if_false]
              exact ih h2

theorem insertByCreated_congr_erasePk :
    ∀ {t t' : Transaction} {l l' : List Transaction},
      erasePk t = erasePk t' → l.map erasePk = l'.map erasePk →
      (insertByCreated t l).map erasePk
        = (insertByCreated t' l').map erasePk := by
  intro t t' l
  induction l generalizing t t' with
  | nil =>
      intro l' ht h
      cases l' with
      | nil => simpa [insertByCreated] using ht
      | cons a' r' => simp at h
  | cons a r ih =>
      intro l' ht h
      cases l' with
      | nil => simp at h
      | cons a' r' =>
          simp only [List.map_cons, List.cons.injEq] at h
          obtain ⟨h1, h2⟩ := h
          have hc : t.created_at = t'.created_at :=
            congrArg (fun u => u.created_at) ht
          have hca : a.created_at = a'.created_at :=
            congrArg (fun u => u.created_at) h1
          simp only [insertByCreated]
          by_cases hle : t.created_at ≤ a.created_at
          · rw [if_pos hle, if_pos (by rw [← hc, ← hca]; exact hle)]
            simp only [List.map_cons, List.cons.injEq]
            exact ⟨h1, ih ht h2⟩
          · rw [if_neg hle, if_neg (by rw [← hc, ← hca]; exact hle)]
            simp only [List.map_cons, List.cons.injEq]
            exact ⟨ht, h1, h2⟩

theorem sortByCreatedDesc_congr_erasePk :
    ∀ {s s' : List Transaction}, s.map erasePk = s'.map erasePk →
      (sortByCreatedDesc s).map erasePk
        = (sortByCreatedDesc s').map erasePk := by
  intro s
  induction s with
  | nil =>
      intro s' h
      cases s' with
      | nil => rfl
      | cons t' rest' => simp at h
  | cons t rest ih =>
      intro s' h
      cases s' with
      | nil => simp at h
      | cons t' rest' =>
          simp only [List.map_cons, List.cons.injEq] at h
          obtain ⟨h1, h2⟩ := h
          simp only [sortByCreatedDesc, List.foldr_cons]
          exact insertByCreated_congr_erasePk h1 (ih h2)

theorem map_paymentOfTx_of_erasePk :
    ∀ {l l' : List Transaction}, l.map erasePk = l'.map erasePk →
      l.map paymentOfTx = l'.map paymentOfTx := by
  intro l
  induction l with
  | nil =>
      intro l' h
      cases l' with
      | nil => rfl
      | cons t' rest' => simp at h
  | cons t rest ih =>
      intro l' h
      cases l' with
      | nil => simp at h
      | cons t' rest' =>
          simp only [List.map_cons, List.cons.injEq] at h ⊢
          refine ⟨?_, ih h.2⟩
          rw [← paymentOfTx_erasePk t, ← paymentOfTx_erasePk t', h.1]

theorem page_congr_erasePk {l l' : List Transaction}
    (h : l.map erasePk = l'.map erasePk) (off lim : ℕ) :
    ((l.drop off).take lim).map paymentOfTx
      = ((l'.drop off).take lim).map paymentOfTx := by
  apply map_paymentOfTx_of_erasePk
  rw [List.map_take, List.map_drop, h, ← List.map_drop, ← List.map_take]

theorem listPayments_congr {s s' : List Transaction}
    (h : s.map erasePk = s'.map erasePk) (mid : String)
    (status : Option String) (lim off : ℕ) :
    listPayments s mid status lim off = listPayments s' mid status lim off := by
  have hfil := filter_congr_erasePk
    (fun t : Transaction => t.merchant_id == mid &&
      (match status with
       | some st => if st = "" then true else t.status == st
       | none => true))
    (fun t => rfl) h
  have hsort := sortByCreatedDesc_congr_erasePk hfil
  have hpage := page_congr_erasePk hsort off lim
  have hlen := congrArg List.length hfil
  simp only [List.length_map] at hlen
  simp only [listPayments]
  rw [hpage, hlen]


/-! ## The claims -/

/-- C1, counterexample: `check_payment_received` has no status guard.
Called on a record whose stored status is already `"confirmed"` (with
sufficient observed balance), it is not a no-op: it rewrites the record
(`confirmed_at` moves from 5 to 9) and hands the Notifier another
confirmation event, so the "at most once, no matter how many times the
confirm step runs" part of the claim is false. -/
theorem c1_counterexample :
    (checkPaymentReceived sampleEnv (ledgerWith "addr1" "acct1" 12) 9
        [txConfirmed] txConfirmed).notified = [confirmTx txConfirmed 9] ∧
    txConfirmed.status = "confirmed" ∧
    txConfirmed.confirmed_at = some 5 ∧
    (confirmTx txConfirmed 9).confirmed_at = some 9 ∧
    (checkPaymentReceived sampleEnv (ledgerWith "addr1" "acct1" 12) 9
        [txConfirmed] txConfirmed).store ≠ [txConfirmed] := by
  decide

/-- C1, amended: the unconditional update is compensated only by the scan
query: each listener cycle feeds `check_payment_received` the records
whose stored status is still `"pending"`, and a confirmed record is never
scanned again; hence along any sequential run of the listener (any ledger
evidence, any clock, any fault schedule, any number of cycles) a given
record id is handed to the Notifier at most once, provided the stored ids
are distinct. -/
theorem c1_loop_notifies_at_most_once (E : Env) (LE : LoopEnv)
    (store : List Transaction) (i : String) (n : ℕ)
    (hnd : (store.map (fun u => u.id)).Nodup) :
    notifCount (runListener E LE (initState store) n).notified i ≤ 1 :=
  (runListener_inv (i := i) E LE store hnd n).2.1

/-- C1, witness: three cycles over a store holding one pending payment
with sufficient balance notify its id at most once. -/
theorem c1_witness :
    notifCount (runListener sampleEnv
        (steadyLoopEnv (ledgerWith "addr1" "acct1" 12))
        (initState [txPending]) 3).notified "p1" ≤ 1 :=
  c1_loop_notifies_at_most_once sampleEnv
    (steadyLoopEnv (ledgerWith "addr1" "acct1" 12)) [txPending] "p1" 3
    (by decide)

/-- C2: for a pending payment stored in the collection, a reconciliation
step confirms the record and hands the Notifier the updated snapshot
exactly when the first account's observed balance reaches the requested
amount; when the ledger reports no token accounts or an insufficient
balance, the step returns the collection unchanged with no notification
and no log line, and over arbitrarily many listener cycles of always
insufficient evidence the record stays exactly as it was, never
notified. -/
theorem c2_confirm_iff_sufficient :
    (∀ (E : Env) (L : LedgerView) (now : ℕ) (store : List Transaction)
        (t : Transaction) (a : String) (rest : List String) (q : ℚ),
      getById store t.id = some t → t.status = "pending" →
      L.tokenAccounts t.wallet_address = .ok (a :: rest) →
      L.balance a = .ok q → t.amount ≤ q →
      (checkPaymentReceived E L now store t).notified = [confirmTx t now] ∧
      statusOf (checkPaymentReceived E L now store t).store t.id
        = some "confirmed" ∧
      (confirmTx t now).confirmed_at = some now) ∧
    (∀ (E : Env) (L : LedgerView) (now : ℕ) (store : List Transaction)
        (t : Transaction), insufficientAt L t →
      checkPaymentReceived E L now store t = ⟨store, [], [], []⟩) ∧
    (∀ (E : Env) (LE : LoopEnv) (store : List Transaction) (t : Transaction)
        (n : ℕ), (store.map (fun u => u.id)).Nodup →
      getById store t.id = some t → t.status = "pending" →
      (∀ k, k < n → insufficientAt (LE.ledger k) t) →
      getById (runListener E LE (initState store) n).store t.id = some t ∧
      notifCount (runListener E LE (initState store) n).notified t.id = 0) := by
  refine ⟨?_, ?_, ?_⟩
  · intro E L now store t a rest q hg hp hTA hB hle
    obtain ⟨h1, h2, h3⟩ := check_sufficient hg hTA hB hle E now
    exact ⟨h2, h3, rfl⟩
  · intro E L now store t hins
    exact check_of_insufficient hins E now store
  · intro E LE store t n hnd hg hp hins
    exact runListener_pending_preserved E LE store hnd hg n hins

/-- C2, witness: the three parts at concrete inputs: balance 12 confirms
the pending payment of 10 and notifies; balance 5 leaves everything
unchanged; four cycles of balance 5 keep the record pending, never
notified. -/
theorem c2_witness :
    ((checkPaymentReceived sampleEnv (ledgerWith "addr1" "acct1" 12) 9
        [txPending] txPending).notified = [confirmTx txPending 9] ∧
      statusOf (checkPaymentReceived sampleEnv (ledgerWith "addr1" "acct1" 12)
        9 [txPending] txPending).store txPending.id = some "confirmed" ∧
      (confirmTx txPending 9).confirmed_at = some 9) ∧
    (checkPaymentReceived sampleEnv (ledgerWith "addr1" "acct1" 5) 9
        [txPending] txPending = ⟨[txPending], [], [], []⟩) ∧
    (getById (runListener sampleEnv
        (steadyLoopEnv (ledgerWith "addr1" "acct1" 5))
        (initState [txPending]) 4).store txPending.id = some txPending ∧
      notifCount (runListener sampleEnv
        (steadyLoopEnv (ledgerWith "addr1" "acct1" 5))
        (initState [txPending]) 4).notified txPending.id = 0) :=
  ⟨c2_confirm_iff_sufficient.1 sampleEnv (ledgerWith "addr1" "acct1" 12) 9
      [txPending] txPending "acct1" [] 12 (by decide) (by decide) rfl
      rfl (by decide),
   c2_confirm_iff_sufficient.2.1 sampleEnv (ledgerWith "addr1" "acct1" 5) 9
      [txPending] txPending
      (Or.inr ⟨"acct1", [], 5, rfl, rfl, by decide⟩),
   c2_confirm_iff_sufficient.2.2 sampleEnv
      (steadyLoopEnv (ledgerWith "addr1" "acct1" 5)) [txPending] txPending 4
      (by decide) (by decide) (by decide)
      (by
        intro k hk
        right
        exact ⟨"acct1", [], 5, rfl, rfl, by decide⟩)⟩

/-- C3, counterexample: `create_payment` never raises a duplicate error.
A second create with the same `(merchant_id, payment_id)` pair succeeds
and leaves two records with that pair in the collection. -/
theorem c3_counterexample :
    dupResult.2.success = true ∧
    dupResult.1.length = 2 ∧
    ∀ r ∈ dupResult.1, r.merchant_id = "m1" ∧ r.payment_id = "ext1" := by
  decide

/-- C3, amended: `create_payment` unconditionally inserts a fresh record
with status `"pending"` and null `confirmed_at` and reports success; it
performs no duplicate check on `(merchant_id, payment_id)` whatsoever. -/
theorem c3_always_inserts (mid : String) (req : PaymentRequest)
    (wa pk uuid : String) (now : ℕ) (store : List Transaction) :
    (createPayment mid req wa pk uuid now store).2.success = true ∧
    (createPayment mid req wa pk uuid now store).1 = store ++
      [⟨uuid, mid, req.payment_id, wa, pk, req.amount, "pending", none, now,
        none, req.metadata⟩] :=
  ⟨rfl, rfl⟩

/-- C4, counterexample: the comparison is done on binary64 values, not on
exact 6-decimal numbers.  The decimals 10000000000.000001 (observed) and
10000000000.000002 (requested) satisfy observed < requested exactly, yet
both parse to the same binary64 value, so the code confirms the payment
the claim says must remain pending. -/
theorem c4_counterexample :
    ((10:ℚ)^16 + 1)/10^6 < ((10:ℚ)^16 + 2)/10^6 ∧
    pendTxBig.amount = roundF64 (((10:ℚ)^16 + 2)/10^6) ∧
    statusOf (checkPaymentReceived sampleEnv
        (ledgerWith "addr1" "acct1" (roundF64 (((10:ℚ)^16 + 1)/10^6))) 9
        [pendTxBig] pendTxBig).store "p1" = some "confirmed" := by
  refine ⟨by norm_num, rfl, ?_⟩
  have hg : getById [pendTxBig] pendTxBig.id = some pendTxBig := by
    simp [getById, pendTxBig]
  have hTA : (ledgerWith "addr1" "acct1"
      (roundF64 (((10:ℚ)^16 + 1)/10^6))).tokenAccounts
        pendTxBig.wallet_address = .ok ("acct1" :: []) := by
    simp [ledgerWith, pendTxBig]
  have hB : (ledgerWith "addr1" "acct1"
      (roundF64 (((10:ℚ)^16 + 1)/10^6))).balance "acct1"
        = .ok (roundF64 (((10:ℚ)^16 + 1)/10^6)) := by
    simp [ledgerWith]
  have hle : pendTxBig.amount ≤ roundF64 (((10:ℚ)^16 + 1)/10^6) := by
    show roundF64 (((10:ℚ)^16 + 2)/10^6) ≤ roundF64 (((10:ℚ)^16 + 1)/10^6)
    rw [roundF64_big1, roundF64_big2]
  obtain ⟨-, -, h3⟩ := check_sufficient hg hTA hB hle sampleEnv 9
  exact h3

/-- C4, amended: the comparison is the exact order on the binary64 values
the decimals parse to, with no tolerance window; on the spec's own
scenario it agrees with exact decimal comparison: 9.999999 parses below
10, 10.00 parses exactly, and five listener cycles of observed balance
9.999999 against requested 10 leave the record pending and never
notified. -/
theorem c4_float_comparison :
    roundF64 ((9999999 : ℚ)/10^6) < roundF64 (10:ℚ) ∧
    roundF64 (10:ℚ) = 10 ∧
    (getById (runListener sampleEnv (steadyLoopEnv
        (ledgerWith "addr1" "acct1" (roundF64 ((9999999 : ℚ)/10^6))))
        (initState [txPending]) 5).store "p1" = some txPending ∧
      notifCount (runListener sampleEnv (steadyLoopEnv
        (ledgerWith "addr1" "acct1" (roundF64 ((9999999 : ℚ)/10^6))))
        (initState [txPending]) 5).notified "p1" = 0) := by
  refine ⟨roundF64_scenario_lt_ten, roundF64_ten, ?_⟩
  have hg : getById [txPending] txPending.id = some txPending := by decide
  have hres := runListener_pending_preserved sampleEnv
    (steadyLoopEnv (ledgerWith "addr1" "acct1"
      (roundF64 ((9999999 : ℚ)/10^6)))) [txPending] (by decide) hg 5 ?_
  · exact hres
  · intro k hk
    right
    refine ⟨"acct1", [], roundF64 ((9999999 : ℚ)/10^6), ?_, ?_, ?_⟩
    · simp [steadyLoopEnv, ledgerWith, txPending]
    · simp [steadyLoopEnv, ledgerWith]
    · have h10 : txPending.amount = (10:ℚ) := rfl
      rw [h10]
      have hlt := roundF64_scenario_lt_ten
      rw [roundF64_ten] at hlt
      exact hlt

/-- C5: starting from the empty collection, after any sequence of
operations (creates, reconciliation steps, whole listener cycles, reads)
every stored record has a non-null `confirmed_at` exactly when its status
is `"confirmed"`: creation writes `("pending", null)` together and the
update writes `("confirmed", now)` together. -/
theorem c5_confirmed_at_iff_status (E : Env) (ops : List SysOp) :
    ∀ u ∈ applyOps E [] ops,
      (u.status = "confirmed" ↔ u.confirmed_at ≠ none) := by
  intro u hu
  exact okRecord_applyOps E ops [] (by simp) u hu

/-- C5, witness: after a create followed by a confirming reconciliation
step, the confirmed record satisfies the invariant. -/
theorem c5_witness :
    confirmTx txPending 9 ∈ applyOps sampleEnv []
      [SysOp.createOp "m1" req1 "addr1" "sk1" "p1" 1,
       SysOp.checkOp (ledgerWith "addr1" "acct1" 12) 9 txPending] ∧
    ((confirmTx txPending 9).status = "confirmed" ↔
      (confirmTx txPending 9).confirmed_at ≠ none) :=
  ⟨by decide,
   c5_confirmed_at_iff_status sampleEnv
     [SysOp.createOp "m1" req1 "addr1" "sk1" "p1" 1,
      SysOp.checkOp (ledgerWith "addr1" "acct1" 12) 9 txPending]
     (confirmTx txPending 9) (by decide)⟩

/-- C6: once a stored record's status is `"confirmed"`, no subsequent
operation of the system — creates, reconciliation steps with any ledger
evidence and any delivery oracle (webhook failures included), listener
cycles, reads — ever changes it back to `"pending"`: the only write path
sets status to `"confirmed"`. -/
theorem c6_confirmed_monotonic (E : Env) (store : List Transaction)
    (i : String) (ops : List SysOp)
    (h : statusOf store i = some "confirmed") :
    statusOf (applyOps E store ops) i = some "confirmed" :=
  statusOf_applyOps_confirmed E ops store i h

/-- C6, witness: a confirmed record stays confirmed through a
reconciliation step whose webhook delivery fails, a full listener cycle
and a read. -/
theorem c6_witness :
    statusOf [txConfirmed] "p1" = some "confirmed" ∧
    statusOf (applyOps failEnv [txConfirmed]
        [SysOp.checkOp (ledgerWith "addr1" "acct1" 12) 9 txConfirmed,
         SysOp.cycleOp (ledgerWith "addr1" "acct1" 12) 10 none,
         SysOp.readGet "m1" "ext1"]) "p1" = some "confirmed" :=
  ⟨by decide,
   c6_confirmed_monotonic failEnv [txConfirmed] "p1"
     [SysOp.checkOp (ledgerWith "addr1" "acct1" 12) 9 txConfirmed,
      SysOp.cycleOp (ledgerWith "addr1" "acct1" 12) 10 none,
      SysOp.readGet "m1" "ext1"] (by decide)⟩

/-- C7: a fault-free listener cycle ends by scheduling the fixed
15-second sleep; a cycle hit by an unexpected exception changes nothing
but the log (one line) and schedules the strictly longer 30-second
backoff; and for every environment — ledgers that fail on every address,
delivery oracles that always raise, any fault schedule — the loop reaches
every iteration, scheduling exactly one sleep per cycle, never
terminating. -/
theorem c7_loop_backoff :
    (∀ (E : Env) (L : LedgerView) (now : ℕ) (s : LoopState),
      (listenerCycle E L now none s).sleeps = s.sleeps ++ [sleepInterval]) ∧
    (∀ (E : Env) (L : LedgerView) (now : ℕ) (e : String) (s : LoopState),
      listenerCycle E L now (some e) s =
        { s with logs := s.logs ++ ["Error in payment listener: " ++ e],
                 sleeps := s.sleeps ++ [errorSleepInterval] }) ∧
    sleepInterval < errorSleepInterval ∧
    (∀ (E : Env) (LE : LoopEnv) (s0 : LoopState) (n : ℕ),
      (runListener E LE s0 n).sleeps.length = s0.sleeps.length + n) := by
  refine ⟨?_, ?_, by decide, ?_⟩
  · intro E L now s
    simp [listenerCycle]
  · intro E L now e s
    rfl
  · intro E LE s0 n
    induction n with
    | zero => rfl
    | succ m ih =>
        rw [runListener]
        cases hf : LE.fault m with
        | some e =>
            simp only [listenerCycle, List.length_append, ih,
              List.length_singleton]
            omega
        | none =>
            simp only [listenerCycle, List.length_append, ih,
              List.length_singleton]
            omega

/-- C8: when the merchant record is missing, or carries no (truthy)
webhook URL, `send_webhook_to_merchant` is a silent no-op (no post, no
log); a failed delivery is caught inside it and becomes a single log
line; and neither the collection nor the notified-snapshot list of a
reconciliation step depends on the delivery oracle at all, so a delivery
failure cannot propagate into the loop's state. -/
theorem c8_notifier_safe :
    (∀ (E : Env) (t : Transaction), getMerchant E t.merchant_id = none →
      sendWebhookToMerchant E t = ([], [])) ∧
    (∀ (E : Env) (t : Transaction) (m : Merchant),
      getMerchant E t.merchant_id = some m →
      (m.webhook_url = none ∨ m.webhook_url = some "") →
      sendWebhookToMerchant E t = ([], [])) ∧
    (∀ (E : Env) (t : Transaction) (m : Merchant) (url e : String),
      getMerchant E t.merchant_id = some m → m.webhook_url = some url →
      url ≠ "" → E.deliver url (webhookPayloadOf t) = .error e →
      sendWebhookToMerchant E t
        = ([(url, webhookPayloadOf t)],
           ["Error sending webhook for " ++ t.id ++ ": " ++ e])) ∧
    (∀ (E : Env) (d : String → WebhookPayload → Except String Unit)
        (L : LedgerView) (now : ℕ) (store : List Transaction)
        (t : Transaction),
      (checkPaymentReceived ⟨E.merchants, d⟩ L now store t).store
        = (checkPaymentReceived E L now store t).store ∧
      (checkPaymentReceived ⟨E.merchants, d⟩ L now store t).notified
        = (checkPaymentReceived E L now store t).notified) := by
  refine ⟨?_, ?_, ?_, ?_⟩
  · intro E t h
    simp [sendWebhookToMerchant, h]
  · intro E t m hm hw
    rcases hw with hw | hw
    · simp [sendWebhookToMerchant, hm, hw]
    · simp [sendWebhookToMerchant, hm, hw]
  · intro E t m url e hm hw hne hd
    simp [sendWebhookToMerchant, hm, hw, hne, hd]
  · intro E d L now store t
    exact check_indep_deliver E d L now store t

/-- C8, witness: the four parts at concrete inputs: unknown merchant,
merchant without URL, failing delivery (logged, not raised), and a
reconciliation step whose store and notifications are identical under a
succeeding and a failing delivery oracle. -/
theorem c8_witness :
    sendWebhookToMerchant emptyEnv txPending = ([], []) ∧
    sendWebhookToMerchant noUrlEnv txPending = ([], []) ∧
    sendWebhookToMerchant failEnv txConfirmed
      = ([("https://hook.example", webhookPayloadOf txConfirmed)],
         ["Error sending webhook for " ++ txConfirmed.id ++ ": "
           ++ "connection refused"]) ∧
    ((checkPaymentReceived ⟨sampleEnv.merchants, failDeliver⟩
        (ledgerWith "addr1" "acct1" 12) 9 [txPending] txPending).store
      = (checkPaymentReceived sampleEnv (ledgerWith "addr1" "acct1" 12) 9
        [txPending] txPending).store ∧
     (checkPaymentReceived ⟨sampleEnv.merchants, failDeliver⟩
        (ledgerWith "addr1" "acct1" 12) 9 [txPending] txPending).notified
      = (checkPaymentReceived sampleEnv (ledgerWith "addr1" "acct1" 12) 9
        [txPending] txPending).notified) :=
  ⟨c8_notifier_safe.1 emptyEnv txPending (by decide),
   c8_notifier_safe.2.1 noUrlEnv txPending noUrlMerchant (by decide)
     (Or.inl (by decide)),
   c8_notifier_safe.2.2.1 failEnv txConfirmed sampleMerchant
     "https://hook.example" "connection refused" (by decide) (by decide)
     (by decide) rfl,
   c8_notifier_safe.2.2.2 sampleEnv failDeliver
     (ledgerWith "addr1" "acct1" 12) 9 [txPending] txPending⟩

/-- C9: every post the Notifier attempts during a reconciliation step
carries the payload built from the re-fetched stored record at the moment
of transition: its event is `"payment.confirmed"`, its payment part is
exactly `paymentOfTx` of that snapshot (so `amount` and `payment_id`
agree with the stored record), and its serialization is the deterministic
image of that snapshot. -/
theorem c9_payload_matches_snapshot (E : Env) (L : LedgerView) (now : ℕ)
    (store : List Transaction) (t : Transaction)
    (p : String × WebhookPayload)
    (hp : p ∈ (checkPaymentReceived E L now store t).sent) :
    ∃ u, (checkPaymentReceived E L now store t).notified = [u] ∧
      getById ((checkPaymentReceived E L now store t).store) t.id = some u ∧
      p.2 = webhookPayloadOf u ∧
      p.2.event = "payment.confirmed" ∧
      p.2.payment.amount = u.amount ∧
      p.2.payment.payment_id = u.payment_id ∧
      p.2.payment.status = u.status ∧
      serializeWebhookPayload p.2
        = serializeWebhookPayload (webhookPayloadOf u) := by
  obtain ⟨u, hn, hg, hmem⟩ := check_sent_of_mem hp
  have hpw := sendWebhook_sent hmem
  refine ⟨u, hn, hg, hpw, ?_, ?_, ?_, ?_, by rw [hpw]⟩
  · rw [hpw]; rfl
  · rw [hpw]; rfl
  · rw [hpw]; rfl
  · rw [hpw]; rfl

/-- C9, witness: the confirming run posts exactly the payload of the
updated stored record. -/
theorem c9_witness :
    ("https://hook.example", webhookPayloadOf (confirmTx txPending 9)) ∈
      (checkPaymentReceived sampleEnv (ledgerWith "addr1" "acct1" 12) 9
        [txPending] txPending).sent ∧
    (∃ u, (checkPaymentReceived sampleEnv (ledgerWith "addr1" "acct1" 12) 9
        [txPending] txPending).notified = [u] ∧
      getById ((checkPaymentReceived sampleEnv
        (ledgerWith "addr1" "acct1" 12) 9
        [txPending] txPending).store) txPending.id = some u ∧
      ("https://hook.example",
        webhookPayloadOf (confirmTx txPending 9)).2 = webhookPayloadOf u ∧
      ("https://hook.example", webhookPayloadOf (confirmTx txPending 9)).2.event
        = "payment.confirmed" ∧
      ("https://hook.example",
        webhookPayloadOf (confirmTx txPending 9)).2.payment.amount
        = u.amount ∧
      ("https://hook.example",
        webhookPayloadOf (confirmTx txPending 9)).2.payment.payment_id
        = u.payment_id ∧
      ("https://hook.example",
        webhookPayloadOf (confirmTx txPending 9)).2.payment.status
        = u.status ∧
      serializeWebhookPayload ("https://hook.example",
        webhookPayloadOf (confirmTx txPending 9)).2
        = serializeWebhookPayload (webhookPayloadOf u)) :=
  ⟨by decide,
   c9_payload_matches_snapshot sampleEnv (ledgerWith "addr1" "acct1" 12) 9
     [txPending] txPending
     ("https://hook.example", webhookPayloadOf (confirmTx txPending 9))
     (by decide)⟩

/-- C10: no public response carries private-key material.  The
`create_payment` response is the same whatever private key was generated
and stored; the `get_payment` and `list_payments` responses are identical
over any two collections that agree after erasing every stored
`wallet_private_key`; and the `create_merchant` response dictionary is
unchanged under any change of the stored
`default_wallet_private_key`. -/
theorem c10_no_private_key_leak :
    (∀ (mid : String) (req : PaymentRequest) (wa pk pk' uuid : String)
        (now : ℕ) (store : List Transaction),
      (createPayment mid req wa pk uuid now store).2
        = (createPayment mid req wa pk' uuid now store).2) ∧
    (∀ s s' : List Transaction, s.map erasePk = s'.map erasePk →
      ∀ mid pid : String, getPayment s mid pid = getPayment s' mid pid) ∧
    (∀ s s' : List Transaction, s.map erasePk = s'.map erasePk →
      ∀ (mid : String) (st : Option String) (lim off : ℕ),
        listPayments s mid st lim off = listPayments s' mid st lim off) ∧
    (∀ (m : Merchant) (k k' : String),
      merchantResponseOf { m with default_wallet_private_key := k }
        = merchantResponseOf { m with default_wallet_private_key := k' }) := by
  refine ⟨?_, ?_, ?_, ?_⟩
  · intro mid req wa pk pk' uuid now store
    rfl
  · intro s s' h mid pid
    exact getPayment_congr h mid pid
  · intro s s' h mid st lim off
    exact listPayments_congr h mid st lim off
  · intro m k k'
    rfl

/-- C10, witness: two stores that differ only in the stored private key
produce identical `get_payment` and `list_payments` responses. -/
theorem c10_witness :
    [txPending].map erasePk = [txPendingAltKey].map erasePk ∧
    getPayment [txPending] "m1" "ext1"
      = getPayment [txPendingAltKey] "m1" "ext1" ∧
    listPayments [txPending] "m1" none 10 0
      = listPayments [txPendingAltKey] "m1" none 10 0 :=
  ⟨by decide,
   c10_no_private_key_leak.2.1 [txPending] [txPendingAltKey] (by decide)
     "m1" "ext1",
   c10_no_private_key_leak.2.2.1 [txPending] [txPendingAltKey] (by decide)
     "m1" none 10 0⟩

end SolanaUSDC
